import Mathlib

/-!
Shallow embedding of the Flask book-catalog service (`src/app.py`).

The service keeps one SQLite table of `PDF` rows and a parallel directory
tree under `uploads/`: one sub-directory per document, derived from the
title, holding the uploaded file and an optional thumbnail.  We model the
database as a list of rows kept in insertion order (SQLite returns the
rows of this simple table in rowid order), the filesystem as a set of file
paths plus a set of directory paths, and each endpoint as a pure function
from a state and a request to a response together with the successor
state.  Error responses carry the state so that handlers that commit
before failing (as `download_pdf` does) are modelled faithfully.
-/

namespace TheReader

/-- ASCII lower-casing, as done by SQLite's `LIKE` and by Python's
`str.lower` on the ASCII range that matters for file extensions. -/
def lowerAscii (c : Char) : Char :=
  if 'A' ≤ c && c ≤ 'Z' then Char.ofNat (c.toNat + 32) else c

/-- Lower-case every character of a string (ASCII range). -/
def lowerStr (s : String) : String := ⟨s.toList.map lowerAscii⟩

/-- Python `str.split()` whitespace characters. -/
def isPyWs (c : Char) : Bool :=
  c == ' ' || c == '\t' || c == '\n' || c == '\r' || c == '\x0b' || c == '\x0c'

/-- Worker for `pyWords`: accumulates the current word (reversed). -/
def wordsAux : List Char → List Char → List (List Char)
  | [], acc => if acc.isEmpty then [] else [acc.reverse]
  | c :: cs, acc =>
    if isPyWs c then
      if acc.isEmpty then wordsAux cs [] else acc.reverse :: wordsAux cs []
    else wordsAux cs (c :: acc)

/-- Python `str.split()` with no argument: split on runs of whitespace,
dropping empty words. -/
def pyWords (cs : List Char) : List (List Char) := wordsAux cs []

/-- Characters kept by werkzeug's `secure_filename` strip regex
`[^A-Za-z0-9_.-]`. -/
def isSecureKeep (c : Char) : Bool :=
  ('A' ≤ c && c ≤ 'Z') || ('a' ≤ c && c ≤ 'z') || ('0' ≤ c && c ≤ '9') ||
    c == '_' || c == '.' || c == '-'

/-- Python `str.strip("._")`: drop leading and trailing dots and underscores. -/
def stripEdges (cs : List Char) : List Char :=
  (((cs.dropWhile (fun c => c == '.' || c == '_')).reverse.dropWhile
      (fun c => c == '.' || c == '_'))).reverse

/-- Models `werkzeug.utils.secure_filename` on ASCII input (the library
first NFKD-normalises and drops non-ASCII characters; on ASCII input that
step is the identity, and we drop non-ASCII code points): replace the path
separator by a space, split on whitespace and re-join with underscores,
keep only `[A-Za-z0-9_.-]`, and strip leading/trailing `.` and `_`. -/
def secure_filename (s : String) : String :=
  let ascii := s.toList.filter (fun c => c.toNat < 128)
  let sep := ascii.map (fun c => if c == '/' then ' ' else c)
  let joined := List.intercalate ['_'] (pyWords sep)
  ⟨stripEdges (joined.filter isSecureKeep)⟩

/-- Characters after the last dot, i.e. Python `filename.rsplit('.', 1)[1]`
when a dot is present (`none` when the filename has no dot). -/
def lastDotSplit : List Char → Option (List Char)
  | [] => none
  | c :: cs =>
    match lastDotSplit cs with
    | some e => some e
    | none => if c == '.' then some cs else none

/-- `app.config['ALLOWED_EXTENSIONS']`. -/
def ALLOWED_EXTENSIONS : List String := ["pdf", "jpg", "jpeg", "png"]

/-- `allowed_file` from `app.py`: a dot is present and the lower-cased part
after the last dot is an allowed extension. -/
def allowed_file (filename : String) : Bool :=
  match lastDotSplit filename.toList with
  | none => false
  | some e => ALLOWED_EXTENSIONS.contains (lowerStr ⟨e⟩)

/-- One row of the `PDF` table.  `description` is always a string in
reachable states (`upload_pdf` defaults it to the empty string);
`thumbnail` is genuinely nullable.  `upload_date` is an abstract clock
value taken from the state at creation time. -/
structure Row where
  id : Nat
  title : String
  author : String
  thumbnail : Option String
  category : String
  file_name : String
  description : String
  upload_date : Nat
  download_count : Nat
deriving Repr, DecidableEq

/-- Whole-system state: the table (insertion order), the id the database
will assign next, the set of files and of per-document directories on
disk, and the current clock used to stamp uploads. -/
structure St where
  rows : List Row
  nextId : Nat
  files : List String
  dirs : List String
  now : Nat
deriving Repr, DecidableEq

/-- The distinguishable error responses of the handlers. -/
inductive Err where
  | notFound
  | invalidFile
  | missingField
  | noFileProvided
  | noFileSelected
  | noData
  | queryRequired
  | noIds
  | downloadFailed
deriving Repr, DecidableEq

/-- Outcome of a handler: a JSON success payload or one of the error
responses. -/
inductive Res (α : Type) where
  | ok : α → Res α
  | error : Err → Res α
deriving Repr, DecidableEq

/-- Success payload of a `Res`, when there is one. -/
def Res.get? {α : Type} : Res α → Option α
  | .ok a => some a
  | .error _ => none

/-- `app.config['UPLOAD_FOLDER']`. -/
def UPLOAD_FOLDER : String := "uploads"

/-- `os.path.join` for the two-component joins the handlers perform. -/
def pathJoin (a b : String) : String := a ++ "/" ++ b

/-- Python `title.replace(" ", "_")`. -/
def replaceSpaces (s : String) : String :=
  ⟨s.toList.map (fun c => if c == ' ' then '_' else c)⟩

/-- `secure_filename(title.replace(" ", "_"))`: the per-document directory
name all handlers derive from the current title. -/
def folderNameOf (title : String) : String := secure_filename (replaceSpaces title)

/-- Absolute (storage-root-relative) path of the per-document directory. -/
def folderPathOf (title : String) : String := pathJoin UPLOAD_FOLDER (folderNameOf title)

/-- Path of a row's stored main file, as the handlers recompute it from the
row's current title and file name. -/
def pdfPathOf (r : Row) : String := pathJoin (folderPathOf r.title) r.file_name

/-- Write a file: the path set gains `p` (overwriting is idempotent on the
set of existing paths). -/
def addPath (p : String) (l : List String) : List String :=
  if l.contains p then l else p :: l

/-- `os.remove` guarded by `os.path.exists`: afterwards the path is absent. -/
def removePath (p : String) (l : List String) : List String :=
  l.filter (fun q => !(q == p))

/-- `os.listdir(d)` is non-empty: some existing file lies directly under
`d` (the tree is one level deep, so a prefix test suffices). -/
def dirNonempty (files : List String) (d : String) : Bool :=
  files.any (fun p => p.startsWith (d ++ "/"))

/-- Python truthiness of an optional form field: `None` and the empty
string are falsy. -/
def falsyOpt : Option String → Bool
  | none => true
  | some s => s == ""

/-- A multipart upload request: the main file's filename (absent when the
`pdf_file` part is missing), the form fields, and the optional thumbnail
part's filename.  File contents are irrelevant to the handlers' logic and
are not modelled. -/
structure UploadReq where
  pdf_file : Option String
  title : Option String
  author : Option String
  category : Option String
  description : Option String
  thumbnail : Option String
deriving Repr, DecidableEq

/-- `upload_pdf` (`POST /api/upload`): presence checks, extension check,
directory creation, file (and optional thumbnail) write, then the row
insert with `download_count = 0` and the current timestamp. -/
def upload_pdf (s : St) (r : UploadReq) : Res Row × St :=
  match r.pdf_file with
  | none => (.error .noFileProvided, s)
  | some fname =>
    if fname == "" then (.error .noFileSelected, s)
    else if falsyOpt r.title || falsyOpt r.author || falsyOpt r.category then
      (.error .missingField, s)
    else if allowed_file fname then
      let title := r.title.getD ""
      let folder_name := folderNameOf title
      let folder_path := pathJoin UPLOAD_FOLDER folder_name
      let dirs1 := addPath folder_path s.dirs
      let filename := secure_filename fname
      let files1 := addPath (pathJoin folder_path filename) s.files
      let thumbRes :=
        match r.thumbnail with
        | some tf =>
          if !(tf == "") && allowed_file tf then
            let tn := secure_filename tf
            (addPath (pathJoin folder_path tn) files1, some (pathJoin folder_name tn))
          else (files1, none)
        | none => (files1, none)
      let row : Row :=
        { id := s.nextId, title := title, author := r.author.getD "",
          thumbnail := thumbRes.2, category := r.category.getD "",
          file_name := filename, description := r.description.getD "",
          upload_date := s.now, download_count := 0 }
      (.ok row,
        { s with rows := s.rows ++ [row], nextId := s.nextId + 1,
                 files := thumbRes.1, dirs := dirs1 })
    else (.error .invalidFile, s)

/-- `get_pdfs` (`GET /api/pdfs`): pagination with `per_page` clamped to
100; no `ORDER BY`, so SQLite yields the rows in insertion order.  Returns
the page and the total row count. -/
def get_pdfs (s : St) (page per_page : Nat) : List Row × Nat :=
  let per := if per_page > 100 then 100 else per_page
  ((s.rows.drop ((page - 1) * per)).take per, s.rows.length)

/-- `get_pdf_by_id` (`GET /api/pdfs/<id>`). -/
def get_pdf_by_id (s : St) (i : Nat) : Res Row :=
  match s.rows.find? (fun r => r.id == i) with
  | none => .error .notFound
  | some r => .ok r

/-- `get_pdf_by_title` (`GET /api/pdfs/title/<title>`). -/
def get_pdf_by_title (s : St) (t : String) : Res Row :=
  match s.rows.find? (fun r => r.title == t) with
  | none => .error .notFound
  | some r => .ok r

/-- First value bound to key `k` in a JSON object, modelled as an
association list (Python `data[k]` when `k in data`). -/
def jget (d : List (String × String)) (k : String) : Option String :=
  (d.find? (fun kv => kv.1 == k)).map (fun kv => kv.2)

/-- Apply the `update_pdf` field assignments to one row: each of the four
updatable fields is overwritten exactly when its key is present. -/
def applyData (d : List (String × String)) (r : Row) : Row :=
  let r1 := match jget d "title" with | some v => { r with title := v } | none => r
  let r2 := match jget d "author" with | some v => { r1 with author := v } | none => r1
  let r3 := match jget d "category" with | some v => { r2 with category := v } | none => r2
  match jget d "description" with | some v => { r3 with description := v } | none => r3

/-- `update_pdf` (`PUT /api/pdfs/<id>`).  `request.get_json()` is `none`
for a missing/non-JSON body; `if not data` also rejects the empty object.
The row is updated in place keyed by its primary key (ids are unique in
every reachable database state). -/
def update_pdf (s : St) (i : Nat) (data : Option (List (String × String))) :
    Res Row × St :=
  match s.rows.find? (fun r => r.id == i) with
  | none => (.error .notFound, s)
  | some pdf =>
    match data with
    | none => (.error .noData, s)
    | some [] => (.error .noData, s)
    | some d =>
      (.ok (applyData d pdf),
        { s with rows := s.rows.map (fun r => if r.id == i then applyData d r else r) })

/-- The file-level part of `delete_pdf`, also copied verbatim into
`batch_delete`: remove the stored file if it exists, remove the thumbnail
if recorded and existing, then remove the per-title directory when it
exists and is empty. -/
def deleteFilesOf (s : St) (pdf : Row) : St :=
  let folder_path := folderPathOf pdf.title
  let files1 := removePath (pathJoin folder_path pdf.file_name) s.files
  let files2 :=
    match pdf.thumbnail with
    | some t => if !(t == "") then removePath (pathJoin UPLOAD_FOLDER t) files1 else files1
    | none => files1
  let dirs1 :=
    if s.dirs.contains folder_path && !(dirNonempty files2 folder_path) then
      removePath folder_path s.dirs
    else s.dirs
  { s with files := files2, dirs := dirs1 }

/-- `delete_pdf` (`DELETE /api/pdfs/<id>`): look the row up, delete the
files (each removal guarded by an existence check), then delete the row
and commit. -/
def delete_pdf (s : St) (i : Nat) : Res Unit × St :=
  match s.rows.find? (fun r => r.id == i) with
  | none => (.error .notFound, s)
  | some pdf =>
    let s1 := deleteFilesOf s pdf
    (.ok (), { s1 with rows := s1.rows.eraseP (fun r => r.id == i) })

/-- SQLite `LIKE` matcher, compiled by recursion on the pattern: `%`
matches any (possibly empty) run of characters, `_` exactly one, and all
other characters compare ASCII-case-insensitively. -/
def likeFun : List Char → (List Char → Bool)
  | [] => fun s => s.isEmpty
  | p :: ps =>
    let rest := likeFun ps
    if p == '%' then fun s => s.tails.any rest
    else fun s =>
      match s with
      | [] => false
      | c :: s' => (p == '_' || lowerAscii p == lowerAscii c) && rest s'

/-- `column LIKE pattern` on strings. -/
def likeB (pattern s : String) : Bool := likeFun pattern.toList s.toList

/-- The row predicate of `search_pdfs`: any of the four text columns
matches `LIKE '%query%'`. -/
def searchHit (q : String) (r : Row) : Bool :=
  let pat := "%" ++ q ++ "%"
  likeB pat r.title || likeB pat r.author || likeB pat r.category || likeB pat r.description

/-- `search_pdfs` (`GET /api/search?q=`): an absent `q` defaults to the
empty string, which is rejected; otherwise filter with the `LIKE`
predicate and return the matches with their count (the no-match branch
returns the same empty list and count 0). -/
def search_pdfs (s : St) (q : String) : Res (List Row × Nat) :=
  if q == "" then .error .queryRequired
  else
    let hits := s.rows.filter (searchHit q)
    .ok (hits, hits.length)

/-- `download_pdf` (`GET /api/download/<id>`): after the row lookup the
download counter is incremented and committed, and only then is the file
served; a missing file raises inside `send_from_directory`, is caught by
the generic handler, and surfaces as a 500 after the useless rollback. -/
def download_pdf (s : St) (i : Nat) : Res (String × String) × St :=
  match s.rows.find? (fun r => r.id == i) with
  | none => (.error .notFound, s)
  | some pdf =>
    let s' := { s with
      rows := s.rows.map (fun r =>
        if r.id == i then { r with download_count := r.download_count + 1 } else r) }
    let p := pdfPathOf pdf
    if s'.files.contains p then (.ok (p, pdf.file_name), s')
    else (.error .downloadFailed, s')

/-- SQLAlchemy session state during one `batch_delete` request.  `dbRows`
is the table as SQL sees it inside the transaction (pending deletes
already flushed are gone); `identity` is the session identity map of
objects loaded by `Query.get`; `pending` are ids with `session.delete`
called but not yet flushed; `flushed` are ids whose DELETE has been
flushed (their instance state is `deleted`, so `Query.get` returns
`None` for them from the identity map). -/
structure BatchSt where
  dbRows : List Row
  identity : List Row
  pending : List Nat
  flushed : List Nat
  files : List String
  dirs : List String
  count : Nat
deriving Repr, DecidableEq

/-- Flush the session: pending DELETEs are executed (their rows leave the
SQL-visible table and their instance states become `deleted`).  Happens
automatically before any query that emits SQL, and at commit. -/
def autoflush (b : BatchSt) : BatchSt :=
  { b with dbRows := b.dbRows.filter (fun r => !(b.pending.contains r.id)),
           flushed := b.flushed ++ b.pending,
           pending := [] }

/-- `PDF.query.get(i)`: the identity map is consulted first and a hit
emits no SQL (hence no autoflush) — a pending-deleted object is returned
again, while a flushed-deleted one yields `None`; on a miss the session
autoflushes, the SELECT runs against the flushed table, and a found row
is added to the identity map. -/
def sessionGet (b : BatchSt) (i : Nat) : Option Row × BatchSt :=
  match b.identity.find? (fun r => r.id == i) with
  | some obj => (if b.flushed.contains i then none else some obj, b)
  | none =>
    let b1 := autoflush b
    match b1.dbRows.find? (fun r => r.id == i) with
    | some r => (some r, { b1 with identity := r :: b1.identity })
    | none => (none, b1)

/-- The file-level deletions of `batch_delete`'s loop body — the same
guarded removals as `delete_pdf`, copied in the source and mirrored
here on the session state. -/
def deleteFilesB (b : BatchSt) (pdf : Row) : BatchSt :=
  let folder_path := folderPathOf pdf.title
  let files1 := removePath (pathJoin folder_path pdf.file_name) b.files
  let files2 :=
    match pdf.thumbnail with
    | some t => if !(t == "") then removePath (pathJoin UPLOAD_FOLDER t) files1 else files1
    | none => files1
  let dirs1 :=
    if b.dirs.contains folder_path && !(dirNonempty files2 folder_path) then
      removePath folder_path b.dirs
    else b.dirs
  { b with files := files2, dirs := dirs1 }

/-- One iteration of `batch_delete`'s loop: look the id up through the
session, skip silently when `None`, otherwise delete the files, mark the
row deleted in the session (`session.delete` is idempotent on an already
pending object) and bump `deleted_count`. -/
def batchStep (b : BatchSt) (i : Nat) : BatchSt :=
  match sessionGet b i with
  | (none, b1) => b1
  | (some pdf, b1) =>
    let b2 := deleteFilesB b1 pdf
    { b2 with
        pending := if b2.pending.contains i then b2.pending else i :: b2.pending,
        count := b2.count + 1 }

/-- The fresh per-request session over the committed state. -/
def initB (s : St) : BatchSt :=
  { dbRows := s.rows, identity := [], pending := [], flushed := [],
    files := s.files, dirs := s.dirs, count := 0 }

/-- `batch_delete` (`POST /api/batch/delete`): reject a body without an
`ids` key, run the per-id loop through the session, then commit — the
final flush executes the still-pending row removals in the one
transaction of the request. -/
def batch_delete (s : St) (ids : Option (List Nat)) : Res Nat × St :=
  match ids with
  | none => (.error .noIds, s)
  | some l =>
    let b := l.foldl batchStep (initB s)
    let bf := autoflush b
    (.ok b.count, { s with rows := bf.dbRows, files := b.files, dirs := b.dirs })

/-- Invariant of the batch-delete session after the ids in `done` have
been processed, over the initial committed state `s`: the SQL-visible
table is the initial one minus the flushed deletes, flushed and pending
ids were all requested, the identity map holds original rows of processed
ids, every stored row whose id was processed is pending or flushed, files
only ever shrink, and every processed document's stored file is gone. -/
structure BatchInv (s : St) (done : List Nat) (b : BatchSt) : Prop where
  db_eq : b.dbRows = s.rows.filter (fun r => !(b.flushed.contains r.id))
  flushed_done : ∀ i ∈ b.flushed, i ∈ done
  pending_done : ∀ i ∈ b.pending, i ∈ done
  id_rows : ∀ r ∈ b.identity, r ∈ s.rows
  id_done : ∀ r ∈ b.identity, r.id ∈ done
  done_del : ∀ r ∈ s.rows, r.id ∈ done → r.id ∈ b.pending ∨ r.id ∈ b.flushed
  files_sub : List.Sublist b.files s.files
  files_del : ∀ i ∈ done, ∀ pdf, s.rows.find? (fun r => r.id == i) = some pdf →
      pdfPathOf pdf ∉ b.files

/-- Database well-formedness, maintained by SQLite's integer primary key:
rows are listed in strictly increasing id order (in particular ids are
unique), and the id the database will assign next is above every existing
id. -/
def WF (s : St) : Prop :=
  s.rows.Pairwise (fun a b => a.id < b.id) ∧ ∀ r ∈ s.rows, r.id < s.nextId

instance (s : St) : Decidable (WF s) := by
  unfold WF; exact instDecidableAnd

/-- Spec-side notion for Search: `q`, lower-cased, is a prefix of `t`,
lower-cased (ASCII case folding, matching SQLite's `LIKE`). -/
def ciPref (q t : List Char) : Bool :=
  (q.map lowerAscii).isPrefixOf (t.map lowerAscii)

/-- Spec-side notion for Search, from the spec's words: case-insensitive
substring match — some suffix of `s` starts (case-insensitively) with `q`. -/
def substrCI (q s : String) : Bool :=
  s.toList.tails.any (fun t => ciPref q.toList t)

/-- The query contains no `LIKE` metacharacter. -/
def noWildcard (q : String) : Bool :=
  q.toList.all (fun c => !(c == '%') && !(c == '_'))

/-- The fields of a row that `update_pdf` must never touch, plus the id. -/
def frameOf (r : Row) : Nat × String × Option String × Nat × Nat :=
  (r.id, r.file_name, r.thumbnail, r.upload_date, r.download_count)

/-- Sample document with a thumbnail, stored under `uploads/Dune`. -/
def rowA : Row :=
  { id := 1, title := "Dune", author := "Herbert", thumbnail := some "Dune/cover.jpg",
    category := "scifi", file_name := "dune.pdf", description := "classic",
    upload_date := 5, download_count := 0 }

/-- Sample document without a thumbnail. -/
def rowB : Row :=
  { id := 2, title := "Emma", author := "Austen", thumbnail := none,
    category := "novel", file_name := "emma.pdf", description := "",
    upload_date := 6, download_count := 3 }

/-- State holding `rowA` with its file and thumbnail present on disk. -/
def stA : St :=
  { rows := [rowA], nextId := 2,
    files := ["uploads/Dune/dune.pdf", "uploads/Dune/cover.jpg"],
    dirs := ["uploads/Dune"], now := 9 }

/-- State holding `rowA` while its file and thumbnail are missing on disk. -/
def stNoFile : St :=
  { rows := [rowA], nextId := 2, files := [], dirs := [], now := 9 }

/-- Empty catalog. -/
def stEmpty : St :=
  { rows := [], nextId := 1, files := [], dirs := [], now := 7 }

/-- State holding `rowA` and `rowB`, both files present. -/
def stB : St :=
  { rows := [rowA, rowB], nextId := 3,
    files := ["uploads/Dune/dune.pdf", "uploads/Dune/cover.jpg", "uploads/Emma/emma.pdf"],
    dirs := ["uploads/Dune", "uploads/Emma"], now := 11 }

/-- Upload request with a disallowed extension and a missing title. -/
def reqBadExtNoTitle : UploadReq :=
  { pdf_file := some "notes.txt", title := none, author := some "A",
    category := some "C", description := none, thumbnail := none }

/-- Upload request with a disallowed extension and all required fields. -/
def reqBadExt : UploadReq :=
  { pdf_file := some "notes.txt", title := some "T", author := some "A",
    category := some "C", description := none, thumbnail := none }

/-- Valid upload request whose filename contains a space. -/
def reqSpace : UploadReq :=
  { pdf_file := some "my file.pdf", title := some "Dune", author := some "H",
    category := some "scifi", description := none, thumbnail := none }

/-- Valid upload request with an already-sanitized filename. -/
def reqGood : UploadReq :=
  { pdf_file := some "emma.pdf", title := some "Emma", author := some "Austen",
    category := some "novel", description := some "a novel", thumbnail := none }

theorem find?_append_none {α : Type} (p : α → Bool) (l₁ l₂ : List α)
    (h : l₁.find? p = none) : (l₁ ++ l₂).find? p = l₂.find? p := by
  induction l₁ with
  | nil => rfl
  | cons a l ih =>
    have hpa : p a = false := by
      cases hpa : p a with
      | true => rw [List.find?_cons_of_pos _ hpa] at h; exact absurd h (by simp)
      | false => rfl
    rw [List.find?_cons_of_neg _ (by simp [hpa])] at h
    rw [List.cons_append, List.find?_cons_of_neg _ (by simp [hpa])]
    exact ih h

theorem find?_filter_of_keep {α : Type} (p q : α → Bool) (l : List α)
    (h : ∀ r, p r = true → q r = true) : (l.filter q).find? p = l.find? p := by
  induction l with
  | nil => rfl
  | cons a l ih =>
    cases hq : q a with
    | true =>
      rw [List.filter_cons_of_pos hq]
      cases hp : p a with
      | true => rw [List.find?_cons_of_pos _ hp, List.find?_cons_of_pos _ hp]
      | false =>
        rw [List.find?_cons_of_neg _ (by simp [hp]), List.find?_cons_of_neg _ (by simp [hp])]
        exact ih
    | false =>
      have hp : p a = false := by
        cases hp : p a with
        | true => rw [h a hp] at hq; exact absurd hq (by simp)
        | false => rfl
      rw [List.filter_cons_of_neg (by simp [hq]), List.find?_cons_of_neg _ (by simp [hp])]
      exact ih

theorem eraseP_id_eq_filter (rows : List Row) (i : Nat)
    (hp : rows.Pairwise (fun a b => a.id ≠ b.id)) :
    rows.eraseP (fun r => r.id == i) = rows.filter (fun r => !(r.id == i)) := by
  induction rows with
  | nil => rfl
  | cons a l ih =>
    rcases List.pairwise_cons.mp hp with ⟨hhead, htail⟩
    cases ha : (a.id == i) with
    | true =>
      have hai : a.id = i := by simpa using ha
      rw [List.eraseP_cons, ha, List.filter_cons_of_neg (by simp [ha]), cond]
      symm
      apply List.filter_eq_self.mpr
      intro b hb
      have : a.id ≠ b.id := hhead b hb
      simp only [Bool.not_eq_true']
      simpa using fun hbi => this (by omega)
    | false =>
      rw [List.eraseP_cons, ha, List.filter_cons_of_pos (by simp [ha]), cond]
      exact congrArg (a :: ·) (ih htail)

theorem find?_eraseP_id_none (rows : List Row) (i : Nat)
    (hp : rows.Pairwise (fun a b => a.id ≠ b.id)) :
    (rows.eraseP (fun r => r.id == i)).find? (fun r => r.id == i) = none := by
  rw [eraseP_id_eq_filter rows i hp]
  apply List.find?_eq_none.mpr
  intro r hr
  have := (List.mem_filter.mp hr).2
  simp only [Bool.not_eq_true'] at this
  simp [this]

theorem find?_map_id_pred (rows : List Row) (i : Nat) (f : Row → Row)
    (hf : ∀ r, (f r).id = r.id) :
    (rows.map f).find? (fun r => r.id == i) = (rows.find? (fun r => r.id == i)).map f := by
  rw [List.find?_map]
  have hcomp : ((fun r => r.id == i) ∘ f) = (fun r => r.id == i) := by
    funext r
    simp [Function.comp, hf]
  rw [hcomp]

theorem not_mem_removePath (p : String) (l : List String) : p ∉ removePath p l := by
  intro h
  have := (List.mem_filter.mp h).2
  simp at this

theorem removePath_sublist (p : String) (l : List String) :
    List.Sublist (removePath p l) l := List.filter_sublist l

theorem deleteFilesOf_rows (s : St) (pdf : Row) : (deleteFilesOf s pdf).rows = s.rows := rfl

theorem deleteFilesOf_files_sublist (s : St) (pdf : Row) :
    List.Sublist (deleteFilesOf s pdf).files s.files := by
  unfold deleteFilesOf
  dsimp only
  rcases pdf.thumbnail with _ | t
  · exact removePath_sublist ..
  · dsimp only
    split
    · exact (removePath_sublist ..).trans (removePath_sublist ..)
    · exact removePath_sublist ..

theorem contains_removePath_self (p : String) (l : List String) :
    (removePath p l).contains p = false := by
  rw [Bool.eq_false_iff]
  intro h
  exact not_mem_removePath p l (by simpa using h)

theorem contains_dirUpdate (fp : String) (dirs : List String) (ne : Bool) :
    (if dirs.contains fp && !ne then removePath fp dirs else dirs).contains fp
      = (dirs.contains fp && ne) := by
  by_cases hm : fp ∈ dirs <;> cases ne <;>
    simp [hm, not_mem_removePath]

theorem deleteFilesOf_not_mem (s : St) (pdf : Row) :
    pdfPathOf pdf ∉ (deleteFilesOf s pdf).files := by
  unfold deleteFilesOf
  dsimp only
  cases ht : pdf.thumbnail with
  | none => exact not_mem_removePath _ _
  | some t =>
    dsimp only
    split
    · intro hmem
      exact not_mem_removePath _ _ ((removePath_sublist ..).mem hmem)
    · exact not_mem_removePath _ _

theorem frame_applyData (d : List (String × String)) (r : Row) :
    frameOf (applyData d r) = frameOf r := by
  unfold applyData
  cases jget d "title" <;> cases jget d "author" <;>
    cases jget d "category" <;> cases jget d "description" <;> rfl

theorem applyData_fields (d : List (String × String)) (r : Row) :
    (applyData d r).title = ((jget d "title").getD r.title) ∧
    (applyData d r).author = ((jget d "author").getD r.author) ∧
    (applyData d r).category = ((jget d "category").getD r.category) ∧
    (applyData d r).description = ((jget d "description").getD r.description) := by
  unfold applyData
  cases jget d "title" <;> cases jget d "author" <;>
    cases jget d "category" <;> cases jget d "description" <;>
    exact ⟨rfl, rfl, rfl, rfl⟩

/-- C5 counterexample: on a stored document, an Update whose JSON body is
non-empty but contains none of the four updatable fields does not fail
with `NoData`; it succeeds and changes nothing. -/
theorem update_no_updatable_field_succeeds :
    (update_pdf stA 1 (some [("foo", "bar")])).1 = .ok rowA ∧
    (update_pdf stA 1 (some [("foo", "bar")])).2 = stA := by decide

/-- C5 (amended): Update fails with `NoData` exactly when the request body
is absent or the empty object; a non-empty body succeeds, overwriting
exactly the provided fields among title/author/category/description and
defaulting each absent one to its previous value. -/
theorem update_spec (s : St) (i : Nat) (pdf : Row)
    (h : s.rows.find? (fun r => r.id == i) = some pdf) :
    update_pdf s i none = (.error .noData, s) ∧
    update_pdf s i (some []) = (.error .noData, s) ∧
    ∀ kv d,
      (update_pdf s i (some (kv :: d))).1 = .ok (applyData (kv :: d) pdf) ∧
      (applyData (kv :: d) pdf).title = ((jget (kv :: d) "title").getD pdf.title) ∧
      (applyData (kv :: d) pdf).author = ((jget (kv :: d) "author").getD pdf.author) ∧
      (applyData (kv :: d) pdf).category = ((jget (kv :: d) "category").getD pdf.category) ∧
      (applyData (kv :: d) pdf).description =
        ((jget (kv :: d) "description").getD pdf.description) := by
  refine ⟨by simp [update_pdf, h], by simp [update_pdf, h], fun kv d => ?_⟩
  have hf := applyData_fields (kv :: d) pdf
  exact ⟨by simp [update_pdf, h], hf.1, hf.2.1, hf.2.2.1, hf.2.2.2⟩

/-- C5 witness: on the sample state, an absent body yields `NoData`, and a
body setting only the title succeeds with exactly that field applied. -/
theorem update_spec_witness :
    update_pdf stA 1 none = (.error .noData, stA) ∧
    (update_pdf stA 1 (some [("title", "Arrakis")])).1
        = .ok (applyData [("title", "Arrakis")] rowA) ∧
    (applyData [("title", "Arrakis")] rowA).title = "Arrakis" ∧
    (applyData [("title", "Arrakis")] rowA).author = rowA.author := by
  have H := update_spec stA 1 rowA (by decide)
  have H3 := H.2.2 ("title", "Arrakis") []
  refine ⟨H.1, H3.1, ?_, ?_⟩
  · rw [H3.2.1]; decide
  · rw [H3.2.2.1]; decide

/-- C6: Update never changes a row's id, stored filename, thumbnail,
upload timestamp, or download count, and leaves the filesystem (files and
directories) untouched, on every branch including errors. -/
theorem update_frame (s : St) (i : Nat) (d : Option (List (String × String))) :
    (update_pdf s i d).2.files = s.files ∧
    (update_pdf s i d).2.dirs = s.dirs ∧
    (update_pdf s i d).2.rows.map frameOf = s.rows.map frameOf := by
  unfold update_pdf
  cases hfind : s.rows.find? (fun r => r.id == i) with
  | none => exact ⟨rfl, rfl, rfl⟩
  | some pdf =>
    cases d with
    | none => exact ⟨rfl, rfl, rfl⟩
    | some l =>
      cases l with
      | nil => exact ⟨rfl, rfl, rfl⟩
      | cons kv tl =>
        refine ⟨rfl, rfl, ?_⟩
        dsimp only
        rw [List.map_map]
        apply List.map_congr_left
        intro r _
        by_cases hr : r.id = i
        · simp [Function.comp, hr, frame_applyData]
        · simp [Function.comp, hr]

/-- C1 counterexample: when the row exists but its file is missing on
disk, Download fails — yet the failed call has already incremented and
committed `download_count` (and the failure is the generic 500, not
`NotFound`), so a failed Download does not leave `download_count`
unchanged. -/
theorem download_failure_increments_count :
    (download_pdf stNoFile 1).1 = .error .downloadFailed ∧
    (download_pdf stNoFile 1).2.rows.map Row.download_count = [1] ∧
    stNoFile.rows.map Row.download_count = [0] := by decide

/-- C1 (amended): Download of an unknown id fails with `NotFound` and
leaves the state unchanged; on a stored id the counter is incremented by
exactly one and committed before the file is read, so the increment
persists both when the file exists (content returned) and when it is
missing (the call fails with the generic failure, not `NotFound`). -/
theorem download_spec (s : St) (i : Nat) :
    (s.rows.find? (fun r => r.id == i) = none → download_pdf s i = (.error .notFound, s)) ∧
    ∀ pdf, s.rows.find? (fun r => r.id == i) = some pdf →
      ((download_pdf s i).2.rows.find? (fun r => r.id == i)).map Row.download_count
          = some (pdf.download_count + 1) ∧
      (pdfPathOf pdf ∈ s.files →
        (download_pdf s i).1 = .ok (pdfPathOf pdf, pdf.file_name)) ∧
      (pdfPathOf pdf ∉ s.files → (download_pdf s i).1 = .error .downloadFailed) := by
  constructor
  · intro h
    simp [download_pdf, h]
  · intro pdf h
    have hid : pdf.id = i := by simpa using List.find?_some h
    have hcount :
        ((download_pdf s i).2.rows.find? (fun r => r.id == i)).map Row.download_count
          = some (pdf.download_count + 1) := by
      simp only [download_pdf, h]
      split
      · rw [find?_map_id_pred _ i _ (fun r => by split <;> rfl), h]
        simp [hid]
      · rw [find?_map_id_pred _ i _ (fun r => by split <;> rfl), h]
        simp [hid]
    refine ⟨hcount, ?_, ?_⟩
    · intro hmem
      simp [download_pdf, h, hmem]
    · intro hmem
      simp [download_pdf, h, hmem]

/-- C1 witness: on the sample state with the file present, Download
succeeds, returns the stored file, and the persisted count becomes 1. -/
theorem download_spec_witness :
    ((download_pdf stA 1).2.rows.find? (fun r => r.id == 1)).map Row.download_count
        = some 1 ∧
    (download_pdf stA 1).1 = .ok (pdfPathOf rowA, rowA.file_name) := by
  have H := (download_spec stA 1).2 rowA (by decide)
  exact ⟨H.1, H.2.1 (by decide)⟩

/-- C2 counterexample: a request whose main file has a disallowed
extension but whose title is missing is rejected with the missing-field
error, not `InvalidFile` — the presence checks run before the extension
check. -/
theorem upload_missing_field_beats_extension :
    allowed_file "notes.txt" = false ∧
    upload_pdf stA reqBadExtNoTitle = (.error .missingField, stA) := by decide

/-- C2 (amended): an Upload request that supplies the main file with a
non-empty filename and non-empty title, author and category, but whose
filename extension is outside {pdf, jpg, jpeg, png}, fails with
`InvalidFile` and leaves the state (rows and disk) unchanged; requests
failing the earlier presence checks are rejected before any side effect
as well. -/
theorem upload_invalid_extension_rejected (s : St) (r : UploadReq) (f t a c : String)
    (hf : r.pdf_file = some f) (hne : f ≠ "")
    (ht : r.title = some t) (ht' : t ≠ "")
    (ha : r.author = some a) (ha' : a ≠ "")
    (hc : r.category = some c) (hc' : c ≠ "")
    (hext : allowed_file f = false) :
    upload_pdf s r = (.error .invalidFile, s) := by
  simp [upload_pdf, hf, ht, ha, hc, falsyOpt, hne, ht', ha', hc', hext]

/-- C2 witness: the concrete bad-extension request with all fields present
is rejected with `InvalidFile` and the state is untouched. -/
theorem upload_invalid_extension_rejected_witness :
    upload_pdf stA reqBadExt = (.error .invalidFile, stA) :=
  upload_invalid_extension_rejected stA reqBadExt "notes.txt" "T" "A" "C"
    (by decide) (by decide) (by decide) (by decide) (by decide) (by decide)
    (by decide) (by decide) (by decide)

/-- C10: Delete of a stored id succeeds and removes exactly that row for
every filesystem contents — each on-disk removal is guarded by an
existence check, so already-absent files, thumbnails or directories never
make it fail. -/
theorem delete_succeeds_without_files (s : St) (i : Nat) (pdf : Row)
    (h : s.rows.find? (fun r => r.id == i) = some pdf) :
    (delete_pdf s i).1 = .ok () ∧
    (delete_pdf s i).2.rows.length + 1 = s.rows.length := by
  have hmem : pdf ∈ s.rows := List.mem_of_find?_eq_some h
  have hpos : 0 < s.rows.length := List.length_pos_of_mem hmem
  constructor
  · simp [delete_pdf, h]
  · have hlen : ((deleteFilesOf s pdf).rows.eraseP (fun r => r.id == i)).length
        = s.rows.length - 1 := by
      rw [deleteFilesOf_rows]
      exact List.length_eraseP_of_mem hmem (by simpa using List.find?_some h)
    simp only [delete_pdf, h]
    rw [hlen]
    omega

/-- C10 witness: deleting the sample document from the state where its
file, thumbnail and directory are all already absent still succeeds and
removes the row. -/
theorem delete_succeeds_without_files_witness :
    (delete_pdf stNoFile 1).1 = .ok () ∧
    (delete_pdf stNoFile 1).2.rows.length + 1 = stNoFile.rows.length :=
  delete_succeeds_without_files stNoFile 1 rowA (by decide)

/-- C3: Delete succeeds on a stored id; afterwards the row's stored file
path and its thumbnail path (when one is recorded) are absent from disk,
the derived directory remains present exactly when it still contains a
file (i.e. it is removed iff it became empty), and looking the id up
again fails with `NotFound`.  The row removal is applied to the state
produced by the file removals (files first, then row). -/
theorem delete_spec (s : St) (i : Nat) (pdf : Row) (hwf : WF s)
    (h : s.rows.find? (fun r => r.id == i) = some pdf) :
    (delete_pdf s i).1 = .ok () ∧
    pdfPathOf pdf ∉ (delete_pdf s i).2.files ∧
    (∀ t, pdf.thumbnail = some t → t ≠ "" →
        pathJoin UPLOAD_FOLDER t ∉ (delete_pdf s i).2.files) ∧
    ((delete_pdf s i).2.dirs.contains (folderPathOf pdf.title)
        = (s.dirs.contains (folderPathOf pdf.title)
            && dirNonempty (delete_pdf s i).2.files (folderPathOf pdf.title))) ∧
    get_pdf_by_id (delete_pdf s i).2 i = .error .notFound := by
  have hres : delete_pdf s i
      = (.ok (), { deleteFilesOf s pdf with
          rows := (deleteFilesOf s pdf).rows.eraseP (fun r => r.id == i) }) := by
    simp [delete_pdf, h]
  have hfiles : (delete_pdf s i).2.files = (deleteFilesOf s pdf).files := by
    rw [hres]
  have hdirs : (delete_pdf s i).2.dirs = (deleteFilesOf s pdf).dirs := by
    rw [hres]
  refine ⟨by rw [hres], ?_, ?_, ?_, ?_⟩
  · rw [hfiles]
    exact deleteFilesOf_not_mem s pdf
  · intro t ht htne
    rw [hfiles]
    unfold deleteFilesOf
    dsimp only
    rw [ht]
    dsimp only
    rw [if_pos (by simp [htne])]
    exact not_mem_removePath _ _
  · rw [hfiles, hdirs]
    unfold deleteFilesOf
    dsimp only
    exact contains_dirUpdate ..
  · rw [hres]
    unfold get_pdf_by_id
    dsimp only
    rw [deleteFilesOf_rows,
      find?_eraseP_id_none s.rows i (hwf.1.imp (fun hab => Nat.ne_of_lt hab))]

/-- C3 witness: deleting the sample document removes its file and
thumbnail, removes the now-empty `uploads/Dune` directory, and a
subsequent lookup of the id fails with `NotFound`. -/
theorem delete_spec_witness :
    (delete_pdf stA 1).1 = .ok () ∧
    pdfPathOf rowA ∉ (delete_pdf stA 1).2.files ∧
    pathJoin UPLOAD_FOLDER "Dune/cover.jpg" ∉ (delete_pdf stA 1).2.files ∧
    ((delete_pdf stA 1).2.dirs.contains (folderPathOf rowA.title)
        = (stA.dirs.contains (folderPathOf rowA.title)
            && dirNonempty (delete_pdf stA 1).2.files (folderPathOf rowA.title))) ∧
    get_pdf_by_id (delete_pdf stA 1).2 1 = .error .notFound := by
  have H := delete_spec stA 1 rowA (by decide) (by decide)
  exact ⟨H.1, H.2.1, H.2.2.1 "Dune/cover.jpg" (by decide) (by decide), H.2.2.2.1, H.2.2.2.2⟩

/-- C9: List clamps the requested page size at the fixed maximum 100 — a
request above 100 behaves exactly like a request for 100, and no page ever
holds more than 100 rows (nor more than requested) — and the returned page
is ordered by identifier ascending (insertion order). -/
theorem list_spec (s : St) (page per : Nat) (hwf : WF s) :
    (100 < per → get_pdfs s page per = get_pdfs s page 100) ∧
    (get_pdfs s page per).1.length ≤ 100 ∧
    (get_pdfs s page per).1.length ≤ per ∧
    (get_pdfs s page per).1.Pairwise (fun a b => a.id < b.id) := by
  refine ⟨?_, ?_, ?_, ?_⟩
  · intro hgt
    simp [get_pdfs, hgt]
  · unfold get_pdfs
    dsimp only
    split
    · exact List.length_take_le ..
    · exact (List.length_take_le ..).trans (by omega)
  · unfold get_pdfs
    dsimp only
    split
    · rename_i hgt
      exact (List.length_take_le ..).trans (by omega)
    · exact List.length_take_le ..
  · unfold get_pdfs
    dsimp only
    exact hwf.1.sublist ((List.take_sublist ..).trans (List.drop_sublist ..))

/-- C9 witness: on the two-row sample state, requesting 150 per page
equals requesting 100, the page stays within the cap, and it is sorted by
id. -/
theorem list_spec_witness :
    (100 < 150 → get_pdfs stB 1 150 = get_pdfs stB 1 100) ∧
    (get_pdfs stB 1 150).1.length ≤ 100 ∧
    (get_pdfs stB 1 150).1.length ≤ 150 ∧
    (get_pdfs stB 1 150).1.Pairwise (fun a b => a.id < b.id) :=
  list_spec stB 1 150 (by decide)

theorem likeFun_prefCI :
    ∀ q : List Char, (∀ c ∈ q, c ≠ '%' ∧ c ≠ '_') →
      ∀ t, likeFun (q ++ ['%']) t = ciPref q t := by
  intro q
  induction q with
  | nil =>
    intro _ t
    have h1 : likeFun ([] ++ ['%']) t = t.tails.any (likeFun []) := rfl
    have h2 : t.tails.any (likeFun []) = true :=
      List.any_eq_true.mpr ⟨[], (List.mem_tails _ _).mpr List.nil_suffix, rfl⟩
    rw [h1, h2]
    unfold ciPref
    cases t <;> rfl
  | cons c q ih =>
    intro hw t
    have hc := hw c (by simp)
    have hq : ∀ x ∈ q, x ≠ '%' ∧ x ≠ '_' := fun x hx => hw x (by simp [hx])
    have hcper : (c == '%') = false := by simpa using hc.1
    have hcund : (c == '_') = false := by simpa using hc.2
    cases t with
    | nil =>
      show likeFun (c :: (q ++ ['%'])) [] = ciPref (c :: q) []
      simp [likeFun, hcper, ciPref, List.isPrefixOf]
    | cons d t' =>
      show likeFun (c :: (q ++ ['%'])) (d :: t') = ciPref (c :: q) (d :: t')
      have hstep : likeFun (c :: (q ++ ['%'])) (d :: t')
          = ((c == '_' || lowerAscii c == lowerAscii d) && likeFun (q ++ ['%']) t') := by
        simp [likeFun, hcper]
      rw [hstep, hcund, Bool.false_or, ih hq t']
      rfl

theorem likeB_eq_substrCI (q s : String) (hw : noWildcard q = true) :
    likeB ("%" ++ q ++ "%") s = substrCI q s := by
  have hlist : ("%" ++ q ++ "%").toList = '%' :: (q.toList ++ ['%']) := by
    simp [String.toList, String.data_append]
  have hw' : ∀ c ∈ q.toList, c ≠ '%' ∧ c ≠ '_' := by
    intro c hc
    have hall : q.toList.all (fun c => !(c == '%') && !(c == '_')) = true := hw
    have := List.all_eq_true.mp hall c hc
    constructor
    · intro he
      rw [he] at this
      exact absurd this (by decide)
    · intro he
      rw [he] at this
      exact absurd this (by decide)
  unfold likeB
  rw [hlist]
  have h1 : likeFun ('%' :: (q.toList ++ ['%']))
      = fun cs => cs.tails.any (likeFun (q.toList ++ ['%'])) := rfl
  have h2 : likeFun (q.toList ++ ['%']) = fun t => ciPref q.toList t :=
    funext (likeFun_prefCI q.toList hw')
  rw [h1, h2]
  rfl

/-- C7 counterexample: on the sample state, the empty query is rejected
with an error (even though the empty string is a substring of every
field), and the query `D%e` — not a substring of any field of the stored
document — still matches it, because the query is spliced into a `LIKE`
pattern whose `%` is a wildcard.  Search is therefore not a pure
substring match for every query string. -/
theorem search_not_pure_substring :
    search_pdfs stA "" = .error .queryRequired ∧
    search_pdfs stA "D%e" = .ok ([rowA], 1) ∧
    (substrCI "D%e" rowA.title || substrCI "D%e" rowA.author ||
      substrCI "D%e" rowA.category || substrCI "D%e" rowA.description) = false := by
  decide

/-- C7 (amended): for a non-empty query containing no `LIKE`
metacharacter (`%`, `_`), Search returns exactly the documents one of
whose four fields contains the query as an ASCII-case-insensitive
substring, paired with the count of matches (so an unmatched query yields
the empty sequence with count 0, not an error); the empty query alone is
rejected with an error. -/
theorem search_spec (s : St) (q : String) :
    search_pdfs s "" = .error .queryRequired ∧
    (q ≠ "" → noWildcard q = true →
      search_pdfs s q = .ok (s.rows.filter (fun r =>
          substrCI q r.title || substrCI q r.author || substrCI q r.category ||
            substrCI q r.description),
        (s.rows.filter (fun r =>
          substrCI q r.title || substrCI q r.author || substrCI q r.category ||
            substrCI q r.description)).length)) := by
  constructor
  · rfl
  · intro hq hw
    have hhit : ∀ r ∈ s.rows, searchHit q r
        = (substrCI q r.title || substrCI q r.author || substrCI q r.category ||
            substrCI q r.description) := by
      intro r _
      unfold searchHit
      dsimp only
      rw [likeB_eq_substrCI _ _ hw, likeB_eq_substrCI _ _ hw,
        likeB_eq_substrCI _ _ hw, likeB_eq_substrCI _ _ hw]
    unfold search_pdfs
    rw [if_neg (by simp [hq]), List.filter_congr hhit]

/-- C7 witness: the empty query errors, and the wildcard-free query `dun`
returns exactly the case-insensitive matches on the sample state. -/
theorem search_spec_witness :
    search_pdfs stA "" = .error .queryRequired ∧
    search_pdfs stA "dun" = .ok (stA.rows.filter (fun r =>
        substrCI "dun" r.title || substrCI "dun" r.author || substrCI "dun" r.category ||
          substrCI "dun" r.description),
      (stA.rows.filter (fun r =>
        substrCI "dun" r.title || substrCI "dun" r.author || substrCI "dun" r.category ||
          substrCI "dun" r.description)).length) :=
  ⟨(search_spec stA "dun").1, (search_spec stA "dun").2 (by decide) (by decide)⟩

/-- C8 counterexample: uploading a file named `my file.pdf` stores the
sanitized filename `my_file.pdf`, not the submitted one — the stored
filename does not equal the submitted value whenever sanitization changes
it. -/
theorem upload_sanitizes_filename :
    ((upload_pdf stEmpty reqSpace).1.get?).map Row.file_name = some "my_file.pdf" ∧
    ((upload_pdf stEmpty reqSpace).1.get?).map Row.file_name ≠ some "my file.pdf" := by
  decide

/-- C8 (amended): a successful Upload followed by GetById of the new
identifier returns a Document whose title, author, category and
description equal the submitted values, whose stored filename is the
sanitized (`secure_filename`) version of the submitted filename, whose
`download_count` is 0, and whose `upload_date` is the creation-time
clock. -/
theorem upload_then_get_spec (s : St) (r : UploadReq) (f t a c : String) (hwf : WF s)
    (hf : r.pdf_file = some f) (hne : f ≠ "")
    (ht : r.title = some t) (ht' : t ≠ "")
    (ha : r.author = some a) (ha' : a ≠ "")
    (hc : r.category = some c) (hc' : c ≠ "")
    (hext : allowed_file f = true) :
    ∃ row, (upload_pdf s r).1 = .ok row ∧
      get_pdf_by_id (upload_pdf s r).2 row.id = .ok row ∧
      row.id = s.nextId ∧ row.title = t ∧ row.author = a ∧ row.category = c ∧
      row.description = r.description.getD "" ∧
      row.file_name = secure_filename f ∧
      row.download_count = 0 ∧ row.upload_date = s.now := by
  have hfne : (f == "") = false := by simpa using hne
  have htne : (t == "") = false := by simpa using ht'
  have hane : (a == "") = false := by simpa using ha'
  have hcne : (c == "") = false := by simpa using hc'
  have hnone : s.rows.find? (fun r => r.id == s.nextId) = none :=
    List.find?_eq_none.mpr (fun x hx => by
      have := hwf.2 x hx
      simp only [beq_iff_eq]
      omega)
  simp only [upload_pdf, hf, hfne, ht, ha, hc, falsyOpt, htne, hane, hcne, hext,
    Bool.or_self, Bool.false_or, Bool.or_false, Bool.false_eq_true, if_false, if_true,
    Option.getD_some]
  refine ⟨_, rfl, ?_, rfl, rfl, rfl, rfl, rfl, rfl, rfl, rfl⟩
  unfold get_pdf_by_id
  dsimp only
  rw [find?_append_none _ _ _ hnone, List.find?_cons_of_pos _ (by simp)]

/-- C8 witness: uploading `reqGood` into the empty catalog and fetching
the fresh id returns the submitted metadata with `download_count` 0. -/
theorem upload_then_get_spec_witness :
    ∃ row, (upload_pdf stEmpty reqGood).1 = .ok row ∧
      get_pdf_by_id (upload_pdf stEmpty reqGood).2 row.id = .ok row ∧
      row.id = stEmpty.nextId ∧ row.title = "Emma" ∧ row.author = "Austen" ∧
      row.category = "novel" ∧
      row.description = reqGood.description.getD "" ∧
      row.file_name = secure_filename "emma.pdf" ∧
      row.download_count = 0 ∧ row.upload_date = stEmpty.now :=
  upload_then_get_spec stEmpty reqGood "emma.pdf" "Emma" "Austen" "novel"
    (by decide) (by decide) (by decide) (by decide) (by decide) (by decide)
    (by decide) (by decide) (by decide) (by decide)

theorem rows_id_unique (rows : List Row)
    (hp : rows.Pairwise (fun a b => a.id ≠ b.id)) :
    ∀ r ∈ rows, ∀ p ∈ rows, r.id = p.id → r = p := by
  induction rows with
  | nil =>
    intro r hr
    cases hr
  | cons a l ih =>
    rcases List.pairwise_cons.mp hp with ⟨hhead, htail⟩
    intro r hr p hp' he
    rcases List.mem_cons.mp hr with h1 | h1 <;> rcases List.mem_cons.mp hp' with h2 | h2
    · rw [h1, h2]
    · rw [h1] at he
      exact absurd he (hhead p h2)
    · rw [h2] at he
      exact absurd he.symm (hhead r h1)
    · exact ih htail r h1 p h2 he

theorem contains_true_of_mem {x : Nat} {l : List Nat} (h : x ∈ l) :
    l.contains x = true := by
  simpa using h

theorem contains_false_of_not_mem {x : Nat} {l : List Nat} (h : x ∉ l) :
    l.contains x = false := by
  simpa using h

theorem deleteFilesB_files_sublist (b : BatchSt) (pdf : Row) :
    List.Sublist (deleteFilesB b pdf).files b.files := by
  unfold deleteFilesB
  dsimp only
  cases pdf.thumbnail with
  | none => exact removePath_sublist ..
  | some t =>
    dsimp only
    split
    · exact (removePath_sublist ..).trans (removePath_sublist ..)
    · exact removePath_sublist ..

theorem deleteFilesB_not_mem (b : BatchSt) (pdf : Row) :
    pdfPathOf pdf ∉ (deleteFilesB b pdf).files := by
  unfold deleteFilesB
  dsimp only
  cases ht : pdf.thumbnail with
  | none => exact not_mem_removePath _ _
  | some t =>
    dsimp only
    split
    · intro hmem
      exact not_mem_removePath _ _ ((removePath_sublist ..).mem hmem)
    · exact not_mem_removePath _ _

theorem mem_insertId {i j : Nat} {l : List Nat}
    (h : i ∈ (if l.contains j then l else j :: l)) : i = j ∨ i ∈ l := by
  split at h
  · exact Or.inr h
  · rcases List.mem_cons.mp h with h1 | h1
    · exact Or.inl h1
    · exact Or.inr h1

theorem insertId_mem_self (j : Nat) (l : List Nat) :
    j ∈ (if l.contains j then l else j :: l) := by
  split
  · next hc => simpa using hc
  · exact List.mem_cons_self ..

theorem insertId_mem_mono {i j : Nat} {l : List Nat} (h : i ∈ l) :
    i ∈ (if l.contains j then l else j :: l) := by
  split
  · exact h
  · exact List.mem_cons_of_mem _ h

theorem initB_inv (s : St) : BatchInv s [] (initB s) := by
  refine ⟨?_, ?_, ?_, ?_, ?_, ?_, ?_, ?_⟩
  · show s.rows = s.rows.filter (fun r => !(([] : List Nat).contains r.id))
    simp
  · intro i hi
    cases hi
  · intro i hi
    cases hi
  · intro r hr
    cases hr
  · intro r hr
    cases hr
  · intro r _ hmem
    cases hmem
  · exact List.Sublist.refl _
  · intro i hi
    cases hi

theorem autoflush_inv {s : St} {done : List Nat} {b : BatchSt}
    (h : BatchInv s done b) : BatchInv s done (autoflush b) := by
  refine ⟨?_, ?_, ?_, h.id_rows, h.id_done, ?_, h.files_sub, h.files_del⟩
  · show b.dbRows.filter _ = s.rows.filter (fun r => !((b.flushed ++ b.pending).contains r.id))
    rw [h.db_eq, List.filter_filter]
    apply List.filter_congr
    intro r _
    by_cases hfl : r.id ∈ b.flushed <;> by_cases hpe : r.id ∈ b.pending <;>
      simp [hfl, hpe]
  · show ∀ i ∈ b.flushed ++ b.pending, i ∈ done
    intro i hi
    rcases List.mem_append.mp hi with h1 | h1
    · exact h.flushed_done i h1
    · exact h.pending_done i h1
  · intro i hi
    cases hi
  · intro r hr hmem
    rcases h.done_del r hr hmem with h1 | h1
    · exact Or.inr (List.mem_append.mpr (Or.inr h1))
    · exact Or.inr (List.mem_append.mpr (Or.inl h1))

theorem BatchInv.push {s : St} {done : List Nat} {b : BatchSt} {j : Nat}
    (h : BatchInv s done b) (hj : j ∈ done) : BatchInv s (done ++ [j]) b := by
  refine ⟨h.db_eq, ?_, ?_, h.id_rows, ?_, ?_, h.files_sub, ?_⟩
  · intro i hi
    exact List.mem_append.mpr (Or.inl (h.flushed_done i hi))
  · intro i hi
    exact List.mem_append.mpr (Or.inl (h.pending_done i hi))
  · intro r hr
    exact List.mem_append.mpr (Or.inl (h.id_done r hr))
  · intro r hr hmem
    rcases List.mem_append.mp hmem with h1 | h1
    · exact h.done_del r hr h1
    · have h2 : r.id = j := by simpa using h1
      exact h.done_del r hr (h2 ▸ hj)
  · intro i hi pdf hpdf
    rcases List.mem_append.mp hi with h1 | h1
    · exact h.files_del i h1 pdf hpdf
    · have h2 : i = j := by simpa using h1
      exact h.files_del i (h2 ▸ hj) pdf hpdf

theorem stepDelete_inv {s : St} {done : List Nat} {j : Nat} {pdf : Row} (b1 : BatchSt)
    (hp : s.rows.Pairwise (fun a b => a.id ≠ b.id))
    (hdb : b1.dbRows = s.rows.filter (fun r => !(b1.flushed.contains r.id)))
    (hfd : ∀ i ∈ b1.flushed, i ∈ done)
    (hpd : ∀ i ∈ b1.pending, i ∈ done)
    (hir : ∀ r ∈ b1.identity, r ∈ s.rows)
    (hidn : ∀ r ∈ b1.identity, r.id ∈ done ++ [j])
    (hdd : ∀ r ∈ s.rows, r.id ∈ done → r.id ∈ b1.pending ∨ r.id ∈ b1.flushed)
    (hfs : List.Sublist b1.files s.files)
    (hfdel : ∀ i ∈ done, ∀ q, s.rows.find? (fun r => r.id == i) = some q →
        pdfPathOf q ∉ b1.files)
    (hmem : pdf ∈ s.rows) (hpid : pdf.id = j) :
    BatchInv s (done ++ [j])
      { deleteFilesB b1 pdf with
          pending := if (deleteFilesB b1 pdf).pending.contains j then
              (deleteFilesB b1 pdf).pending else j :: (deleteFilesB b1 pdf).pending,
          count := (deleteFilesB b1 pdf).count + 1 } := by
  refine ⟨hdb, ?_, ?_, hir, ?_, ?_, ?_, ?_⟩
  · intro i hi
    exact List.mem_append.mpr (Or.inl (hfd i hi))
  · intro i hi
    rcases mem_insertId hi with h1 | h1
    · exact List.mem_append.mpr (Or.inr (h1 ▸ List.mem_singleton.mpr rfl))
    · exact List.mem_append.mpr (Or.inl (hpd i h1))
  · exact hidn
  · intro r hr hmem'
    rcases List.mem_append.mp hmem' with h1 | h1
    · rcases hdd r hr h1 with h2 | h2
      · exact Or.inl (insertId_mem_mono h2)
      · exact Or.inr h2
    · have h2 : r.id = j := by simpa using h1
      rw [h2]
      exact Or.inl (insertId_mem_self j _)
  · exact (deleteFilesB_files_sublist b1 pdf).trans hfs
  · intro i hi q hq
    rcases List.mem_append.mp hi with h1 | h1
    · intro hmm
      exact hfdel i h1 q hq ((deleteFilesB_files_sublist b1 pdf).mem hmm)
    · have h2 : i = j := by simpa using h1
      have hqmem : q ∈ s.rows := List.mem_of_find?_eq_some hq
      have hqid : q.id = i := by simpa using List.find?_some hq
      have hqpdf : q = pdf :=
        rows_id_unique s.rows hp q hqmem pdf hmem (by rw [hqid, hpid, h2])
      rw [hqpdf]
      exact deleteFilesB_not_mem b1 pdf

theorem batchStep_inv (s : St) (done : List Nat) (b : BatchSt) (j : Nat)
    (hp : s.rows.Pairwise (fun a b => a.id ≠ b.id))
    (hinv : BatchInv s done b) :
    BatchInv s (done ++ [j]) (batchStep b j) ∧
    (j ∉ done →
      (batchStep b j).count
        = b.count + (if (s.rows.find? (fun r => r.id == j)).isSome then 1 else 0)) := by
  unfold batchStep sessionGet
  cases hid : b.identity.find? (fun r => r.id == j) with
  | some obj =>
    have hobjmem : obj ∈ b.identity := List.mem_of_find?_eq_some hid
    have hobjid : obj.id = j := by simpa using List.find?_some hid
    have hjdone : j ∈ done := hobjid ▸ hinv.id_done obj hobjmem
    cases hfl : b.flushed.contains j with
    | true => exact ⟨hinv.push hjdone, fun hnot => absurd hjdone hnot⟩
    | false =>
      refine ⟨?_, fun hnot => absurd hjdone hnot⟩
      exact stepDelete_inv b hp hinv.db_eq hinv.flushed_done hinv.pending_done
        hinv.id_rows
        (fun r hr => List.mem_append.mpr (Or.inl (hinv.id_done r hr)))
        hinv.done_del hinv.files_sub hinv.files_del
        (hinv.id_rows obj hobjmem) hobjid
  | none =>
    dsimp only
    have binv1 := autoflush_inv hinv
    cases hdb : (autoflush b).dbRows.find? (fun r => r.id == j) with
    | some r =>
      have hrid : r.id = j := by simpa using List.find?_some hdb
      have hrmem' : r ∈ (autoflush b).dbRows := List.mem_of_find?_eq_some hdb
      have hrrows : r ∈ s.rows := by
        rw [binv1.db_eq] at hrmem'
        exact (List.mem_filter.mp hrmem').1
      have hnotfl : j ∉ (autoflush b).flushed → True := fun _ => trivial
      constructor
      · exact stepDelete_inv { autoflush b with identity := r :: (autoflush b).identity }
          hp binv1.db_eq binv1.flushed_done binv1.pending_done
          (by
            intro x hx
            rcases List.mem_cons.mp hx with h1 | h1
            · exact h1 ▸ hrrows
            · exact binv1.id_rows x h1)
          (by
            intro x hx
            rcases List.mem_cons.mp hx with h1 | h1
            · exact List.mem_append.mpr (Or.inr (by rw [h1, hrid]; exact List.mem_singleton.mpr rfl))
            · exact List.mem_append.mpr (Or.inl (binv1.id_done x h1)))
          binv1.done_del binv1.files_sub binv1.files_del hrrows hrid
      · intro hnot
        have hkeep : ∀ x : Row, (x.id == j) = true →
            (!((autoflush b).flushed.contains x.id)) = true := by
          intro x hx
          have hxj : x.id = j := by simpa using hx
          have : x.id ∉ (autoflush b).flushed := by
            intro hmm
            exact hnot (hxj ▸ binv1.flushed_done x.id hmm)
          rw [contains_false_of_not_mem this]
          rfl
        have hfindS : s.rows.find? (fun x => x.id == j) = some r := by
          rw [← find?_filter_of_keep (fun x => x.id == j)
              (fun x => !((autoflush b).flushed.contains x.id)) s.rows hkeep,
            ← binv1.db_eq]
          exact hdb
        rw [hfindS]
        rfl
    | none =>
      have hnot_db : ∀ x ∈ (autoflush b).dbRows, ¬((x.id == j) = true) :=
        List.find?_eq_none.mp hdb
      constructor
      · refine ⟨binv1.db_eq, ?_, ?_, binv1.id_rows, ?_, ?_, binv1.files_sub, ?_⟩
        · intro i hi
          exact List.mem_append.mpr (Or.inl (binv1.flushed_done i hi))
        · intro i hi
          cases hi
        · intro r hr
          exact List.mem_append.mpr (Or.inl (binv1.id_done r hr))
        · intro r hr hmem
          rcases List.mem_append.mp hmem with h1 | h1
          · rcases binv1.done_del r hr h1 with h2 | h2
            · cases h2
            · exact Or.inr h2
          · have h2 : r.id = j := by simpa using h1
            by_cases hfl : r.id ∈ (autoflush b).flushed
            · exact Or.inr hfl
            · exfalso
              have hrdb : r ∈ (autoflush b).dbRows := by
                rw [binv1.db_eq]
                exact List.mem_filter.mpr ⟨hr, by rw [contains_false_of_not_mem hfl]; rfl⟩
              exact hnot_db r hrdb (by rw [h2]; exact beq_self_eq_true j)
        · intro i hi q hq
          rcases List.mem_append.mp hi with h1 | h1
          · exact binv1.files_del i h1 q hq
          · have h2 : i = j := by simpa using h1
            have hqmem : q ∈ s.rows := List.mem_of_find?_eq_some hq
            have hqid : q.id = i := by simpa using List.find?_some hq
            by_cases hfl : q.id ∈ (autoflush b).flushed
            · exact binv1.files_del i
                (by rw [← hqid]; exact binv1.flushed_done q.id hfl) q hq
            · exfalso
              have hqdb : q ∈ (autoflush b).dbRows := by
                rw [binv1.db_eq]
                exact List.mem_filter.mpr ⟨hqmem, by rw [contains_false_of_not_mem hfl]; rfl⟩
              exact hnot_db q hqdb (by rw [hqid, h2]; exact beq_self_eq_true j)
      · intro hnot
        have hfindS : s.rows.find? (fun x => x.id == j) = none := by
          apply List.find?_eq_none.mpr
          intro x hx hbeq
          have hxj : x.id = j := by simpa using hbeq
          by_cases hfl : x.id ∈ (autoflush b).flushed
          · exact hnot (hxj ▸ binv1.flushed_done x.id hfl)
          · have hxdb : x ∈ (autoflush b).dbRows := by
              rw [binv1.db_eq]
              exact List.mem_filter.mpr ⟨hx, by rw [contains_false_of_not_mem hfl]; rfl⟩
            exact hnot_db x hxdb hbeq
        rw [hfindS]
        rfl

theorem batchFold_inv (s : St) (hp : s.rows.Pairwise (fun a b => a.id ≠ b.id))
    (ids : List Nat) :
    ∀ (done : List Nat) (b : BatchSt), BatchInv s done b →
      BatchInv s (done ++ ids) (ids.foldl batchStep b) ∧
      ((done ++ ids).Nodup →
        (ids.foldl batchStep b).count
          = b.count
            + (ids.filter (fun i => (s.rows.find? (fun r => r.id == i)).isSome)).length) := by
  induction ids with
  | nil =>
    intro done b hinv
    constructor
    · simpa using hinv
    · intro _
      simp
  | cons j ids ih =>
    intro done b hinv
    obtain ⟨hstep_inv, hstep_cnt⟩ := batchStep_inv s done b j hp hinv
    obtain ⟨hfold_inv, hfold_cnt⟩ := ih (done ++ [j]) (batchStep b j) hstep_inv
    have hassoc : (done ++ [j]) ++ ids = done ++ (j :: ids) := by simp
    constructor
    · rw [List.foldl_cons]
      exact hassoc ▸ hfold_inv
    · intro hnd
      have hnd' : ((done ++ [j]) ++ ids).Nodup := by
        rw [hassoc]
        exact hnd
      have hjnotdone : j ∉ done := fun hj =>
        (List.nodup_append.mp hnd).2.2 hj (List.mem_cons_self j ids)
      rw [List.foldl_cons, hfold_cnt hnd', hstep_cnt hjnotdone]
      by_cases hpres : (s.rows.find? (fun r => r.id == j)).isSome = true
      · rw [if_pos hpres,
          List.filter_cons_of_pos (p := fun i => (s.rows.find? (fun r => r.id == i)).isSome)
            hpres,
          List.length_cons]
        omega
      · rw [if_neg hpres,
          List.filter_cons_of_neg (p := fun i => (s.rows.find? (fun r => r.id == i)).isSome)
            (by simpa using hpres)]
        omega

/-- C4 counterexample: requesting the duplicate list `[1, 1]` on a catalog
holding exactly one document (id 1) reports `deleted_count` 2 even though
only one id existed and only one row was deleted — the second
`Query.get(1)` hits the session identity map, where the pending (not yet
flushed) delete is invisible, so the object is returned and counted
again. -/
theorem batch_duplicate_id_double_count :
    (batch_delete stA (some [1, 1])).1 = .ok 2 ∧
    (batch_delete stA (some [1, 1])).2.rows = [] ∧
    stA.rows.length = 1 := by decide

/-- C4 (amended): for every sequence of ids, BatchDelete never errors —
missing ids are skipped silently — it removes exactly the rows whose id
was requested (all row removals land in the single transaction committed
at the end, after the per-id file removals), and every deleted document's
stored file is absent from disk afterwards; for a duplicate-free sequence
`deleted_count` equals the number of requested ids that existed, while a
repeated id can be counted more than once. -/
theorem batch_delete_spec (s : St) (ids : List Nat) (hwf : WF s) :
    (∃ n, (batch_delete s (some ids)).1 = .ok n) ∧
    (batch_delete s (some ids)).2.rows = s.rows.filter (fun r => !(ids.contains r.id)) ∧
    (∀ i pdf, i ∈ ids → s.rows.find? (fun r => r.id == i) = some pdf →
        pdfPathOf pdf ∉ (batch_delete s (some ids)).2.files) ∧
    (ids.Nodup →
      (batch_delete s (some ids)).1
          = .ok ((ids.filter (fun i => (s.rows.find? (fun r => r.id == i)).isSome)).length)) := by
  have hp : s.rows.Pairwise (fun a b => a.id ≠ b.id) := hwf.1.imp Nat.ne_of_lt
  obtain ⟨hinv, hcnt⟩ := batchFold_inv s hp ids [] (initB s) (initB_inv s)
  simp only [List.nil_append] at hinv hcnt
  refine ⟨⟨(ids.foldl batchStep (initB s)).count, rfl⟩, ?_, ?_, ?_⟩
  · show (autoflush (ids.foldl batchStep (initB s))).dbRows = _
    have h1 : (autoflush (ids.foldl batchStep (initB s))).dbRows
        = s.rows.filter (fun r =>
            !(((ids.foldl batchStep (initB s)).flushed
                ++ (ids.foldl batchStep (initB s)).pending).contains r.id)) :=
      (autoflush_inv hinv).db_eq
    rw [h1]
    apply List.filter_congr
    intro r hr
    by_cases hm : r.id ∈ ids
    · have h2 : r.id ∈ (ids.foldl batchStep (initB s)).flushed
          ++ (ids.foldl batchStep (initB s)).pending := by
        rcases hinv.done_del r hr hm with h3 | h3
        · exact List.mem_append.mpr (Or.inr h3)
        · exact List.mem_append.mpr (Or.inl h3)
      rw [contains_true_of_mem h2, contains_true_of_mem hm]
    · have h2 : r.id ∉ (ids.foldl batchStep (initB s)).flushed
          ++ (ids.foldl batchStep (initB s)).pending := by
        intro hmm
        rcases List.mem_append.mp hmm with h3 | h3
        · exact hm (hinv.flushed_done _ h3)
        · exact hm (hinv.pending_done _ h3)
      rw [contains_false_of_not_mem h2, contains_false_of_not_mem hm]
  · intro i pdf hi hfi
    exact hinv.files_del i hi pdf hfi
  · intro hnd
    show Res.ok (ids.foldl batchStep (initB s)).count = _
    rw [hcnt hnd]
    show Res.ok (0 + _) = _
    rw [Nat.zero_add]

/-- C4 witness: requesting ids `[1, 5, 2]` on the two-document state never
errors, deletes documents 1 and 2 while silently skipping the missing id
5, leaves document 1's stored file gone from disk, and reports count 2. -/
theorem batch_delete_spec_witness :
    (∃ n, (batch_delete stB (some [1, 5, 2])).1 = .ok n) ∧
    (batch_delete stB (some [1, 5, 2])).2.rows
        = stB.rows.filter (fun r => !(([1, 5, 2] : List Nat).contains r.id)) ∧
    pdfPathOf rowA ∉ (batch_delete stB (some [1, 5, 2])).2.files ∧
    (batch_delete stB (some [1, 5, 2])).1 = .ok 2 := by
  have H := batch_delete_spec stB [1, 5, 2] (by decide)
  refine ⟨H.1, H.2.1, H.2.2.1 1 rowA (by decide) (by decide), ?_⟩
  rw [H.2.2.2 (by decide)]
  decide

end TheReader
